import Mathlib

/-!
Verification development for the Full-Screen-Screenshot extension.

This file gives a shallow embedding of the core logic of the repository:

* the article detector (`lib/article-detector.js`, embedded from
  `src/unnamed/part_002`): element scoring, article detection, noise-child
  selection;
* the content script (`src/content.js`): `detectAndMeasure`, hide/restore of
  noise elements;
* the scroll-and-capture orchestration (`src/unnamed/part_000` — the
  offscreen-combining pipeline — and `src/background.js` — the in-page
  combining pipeline): `captureScreen` retry loops, the scroll/capture loop
  and the segments it records, the progress notifications;
* the stitcher surface sizing in `combineAndExport` (`src/background.js`)
  and `combineImages` (`src/offscreen.js`);
* the PDF pagination windows of `combineAndExport` (`src/background.js`).

JavaScript numbers are embedded as exact integers (`ℤ`/`ℕ`) and rationals
(`ℚ`); the device pixel ratio is carried as an explicit fraction `num/den`.
`Math.floor` and `Math.ceil` of a rational `x*num/den` are embedded with
Euclidean integer division (which rounds toward -∞ for a positive divisor).
While-loops are embedded with an explicit fuel argument large enough to
cover every iteration of the source loop (each iteration advances
`currentY` by `viewportHeight ≥ 1`, so `articleHeight + 1` steps suffice);
the loop guard is kept as in the source.
-/

/-- `Math.floor(x * num / den)` for integers, exact for `den > 0`
(`Int` division is Euclidean division, i.e. floor for a positive divisor). -/
def jsFloorMul (x num den : ℤ) : ℤ := (x * num) / den

/-- `Math.ceil(x * num / den)` for integers, exact for `den > 0`. -/
def jsCeilMul (x num den : ℤ) : ℤ := -((-(x * num)) / den)

/-! ## Article detector (`src/unnamed/part_002`) -/

/-- An element of the document tree, reduced to the features the detector
reads: tag name, `role`/`itemprop` attributes, the result of testing
`POSITIVE_PATTERN`/`NEGATIVE_PATTERN` against `className + " " + id`,
total text length, `<p>` count, `<img>` count, total link text length,
and the two skip conditions of the candidate scan
(`closest("nav, footer, header, aside")` and computed invisibility). -/
structure Elem where
  tag : String
  role : String
  itemprop : String
  positivePat : Bool
  negativePat : Bool
  textLen : ℕ
  pCount : ℕ
  imgCount : ℕ
  linkLen : ℕ
  skipAncestor : Bool
  hiddenStyle : Bool
deriving DecidableEq

/-- A default element (used only as the out-of-range default of list reads). -/
def defaultElem : Elem :=
  { tag := "", role := "", itemprop := "", positivePat := false,
    negativePat := false, textLen := 0, pCount := 0, imgCount := 0,
    linkLen := 0, skipAncestor := false, hiddenStyle := false }

/-- The `REMOVE_TAGS` set of the detector. -/
def REMOVE_TAGS : List String :=
  ["SCRIPT", "STYLE", "NOSCRIPT", "IFRAME", "NAV", "FOOTER", "HEADER", "ASIDE"]

/-- `getLinkDensity`: link text length over total text length, `1` when the
element has no text. -/
def getLinkDensity (el : Elem) : ℚ :=
  if el.textLen = 0 then 1 else (el.linkLen : ℚ) / (el.textLen : ℚ)

/-- `scoreElement` of the detector, term by term. -/
def scoreElement (el : Elem) : ℚ :=
  (if el.tag = "ARTICLE" then (30 : ℚ) else 0)
  + (if el.tag = "MAIN" then 25 else 0)
  + (if el.tag = "SECTION" then 5 else 0)
  + (if el.tag = "DIV" then 1 else 0)
  + (if el.role = "main" then 25 else 0)
  + (if el.role = "article" then 20 else 0)
  + (if el.itemprop = "articleBody" ∨ el.itemprop = "text" then 30 else 0)
  + (if el.positivePat then 20 else 0)
  + (if el.negativePat then -30 else 0)
  + min ((el.textLen : ℚ) / 100) 30
  + min ((el.pCount : ℚ) * 3) 30
  + min ((el.imgCount : ℚ) * 2) 10
  + (if (1 : ℚ) / 2 < getLinkDensity el then -30 else 0)
  + (if (3 : ℚ) / 10 < getLinkDensity el then -15 else 0)
  + (if el.textLen < 50 then -20 else 0)

/-- The noise test of `findNoisyChildren`: a fixed removal tag, or a
negative-pattern (but not positive-pattern) match with link density above
`0.5` or text length below `30`. -/
def isNoisy (el : Elem) : Bool :=
  REMOVE_TAGS.contains el.tag ||
    (el.negativePat && !el.positivePat &&
      (decide ((1 : ℚ) / 2 < getLinkDensity el) || decide (el.textLen < 30)))

/-- `findNoisyChildren`: filter the article's descendants by the noise test. -/
def findNoisyChildren (children : List Elem) : List Elem :=
  children.filter (fun c => isNoisy c)

/-- The document as `detectArticle` observes it: the query result of each
semantic selector in order, the `div, section, article, main` candidates in
document order, and `document.body` (`none` when the document has no body). -/
structure Doc where
  semanticMatches : List (Option Elem)
  candidates : List Elem
  root : Option Elem

/-- Step 1 of `detectArticle`: the first semantic query result whose total
text length exceeds 200. -/
def semanticPick (doc : Doc) : Option Elem :=
  doc.semanticMatches.findSome? (fun q =>
    q.bind (fun el => if 200 < el.textLen then some el else none))

/-- One iteration of the candidate scan of `detectArticle`: skip excluded or
invisible candidates, otherwise keep the strictly better score
(`score > bestScore`, earliest wins; `none` plays `bestScore = -Infinity`). -/
def heuristicStep (best : Option (Elem × ℚ)) (el : Elem) : Option (Elem × ℚ) :=
  if el.skipAncestor || el.hiddenStyle then best
  else
    match best with
    | none => some (el, scoreElement el)
    | some (_, bs) =>
      if bs < scoreElement el then some (el, scoreElement el) else best

/-- Step 2 of `detectArticle`: the heuristic scan over the candidates in
document order. -/
def heuristicBest (cands : List Elem) : Option (Elem × ℚ) :=
  cands.foldl heuristicStep none

/-- `detectArticle`: semantic pick first, then the heuristic scan, falling
back to `document.body` when the best score is below 10 (also when there is
no candidate at all, since `bestScore = -Infinity < 10`). -/
def detectArticle (doc : Doc) : Option Elem :=
  match semanticPick doc with
  | some el => some el
  | none =>
    match heuristicBest doc.candidates with
    | some (b, bs) => if bs < 10 then doc.root else some b
    | none => doc.root

/-! ## Content script hide/restore (`src/content.js`) -/

/-- The value written into `el.style.display` to hide an element. -/
def displayNone : String := "none"

/-- Hide each element of `idxs` in turn, recording `(index, previous display)`
backup entries in hiding order, as the hide loop of `detectAndMeasure` and
`hideNoise` does. -/
def hideAll (styles : ℕ → String) : List ℕ → (ℕ → String) × List (ℕ × String)
  | [] => (styles, [])
  | i :: rest =>
    let entry := (i, styles i)
    let r := hideAll (Function.update styles i displayNone) rest
    (r.1, entry :: r.2)

/-- Restore the backed-up display values in backup order, as the restore
loops of `detectAndMeasure` and `restoreNoise` do. -/
def restoreAll (styles : ℕ → String) : List (ℕ × String) → (ℕ → String)
  | [] => styles
  | (i, orig) :: rest => restoreAll (Function.update styles i orig) rest

/-- Indices of the noisy children of the article, in document order. -/
def noisyIndices (elements : List Elem) : List ℕ :=
  (List.range elements.length).filter (fun i => isNoisy (elements.getD i defaultElem))

/-- The page as `detectAndMeasure` observes it: a document for
`detectArticle`, the article's descendants with their current inline
`display` styles (indexed by position), the article's bounding rectangle and
the scroll/viewport geometry. -/
structure PageDoc where
  doc : Doc
  articleChildren : List Elem
  styles : ℕ → String
  rectTop : ℚ
  rectLeft : ℚ
  rectWidth : ℚ
  rectHeight : ℚ
  scrollX : ℚ
  scrollY : ℚ
  viewportWidth : ℚ
  viewportHeight : ℚ
  pageHeight : ℚ
  dpr : ℚ

/-- The info record returned by `detectAndMeasure`. -/
structure ArticleInfo where
  top : ℚ
  left : ℚ
  width : ℚ
  height : ℚ
  viewportWidth : ℚ
  viewportHeight : ℚ
  pageHeight : ℚ
  devicePixelRatio : ℚ
  hiddenCount : ℕ

/-- `detectAndMeasure` of `src/content.js`: detect the article (an error
leaves the page untouched), hide the noisy children while measuring, then
restore every hidden element from the backup before returning. The result is
the info (or `none` for the error return) paired with the final styles. -/
def detectAndMeasure (p : PageDoc) : Option ArticleInfo × (ℕ → String) :=
  match detectArticle p.doc with
  | none => (none, p.styles)
  | some _ =>
    let idxs := noisyIndices p.articleChildren
    let hr := hideAll p.styles idxs
    let info : ArticleInfo :=
      { top := max 0 (p.rectTop + p.scrollY - 16)
        left := max 0 (p.rectLeft + p.scrollX - 16)
        width := ((⌈p.rectWidth + 16 * 2⌉ : ℤ) : ℚ)
        height := ((⌈p.rectHeight + 16 * 2⌉ : ℤ) : ℚ)
        viewportWidth := p.viewportWidth
        viewportHeight := p.viewportHeight
        pageHeight := p.pageHeight
        devicePixelRatio := p.dpr
        hiddenCount := hr.2.length }
    (some info, restoreAll hr.1 hr.2)

/-! ## Capture primitive retry loops -/

/-- One outcome of `chrome.tabs.captureVisibleTab`: success, a failure whose
message matches the rate-limit patterns (`MAX_CAPTURE`/`quota`/`Too many`),
or any other failure. -/
inductive CapOutcome where
  | ok (dataUrl : String)
  | rateLimited (msg : String)
  | failed (msg : String)
deriving DecidableEq

/-- The string a JavaScript function returns when it falls off the end of
its body (reachable only when `captureScreen` is called with `retries = 0`). -/
def undefinedStr : String := "undefined"

/-- The retry loop of `captureScreen` in `src/unnamed/part_000`, by remaining
attempts: a success returns at once; a non-rate-limit failure is rethrown at
once; a rate-limit failure before the last attempt sleeps 1500 ms and
retries; a rate-limit failure on the last attempt is rethrown. `oracle n` is
the outcome of the capture call at (absolute) attempt `n`. The second
component is the list of sleep delays performed, in order. -/
def captureScreenGo (oracle : ℕ → CapOutcome) : ℕ → ℕ → Except String String × List ℕ
  | 0, _ => (Except.ok undefinedStr, [])
  | 1, attempt =>
    match oracle attempt with
    | CapOutcome.ok s => (Except.ok s, [])
    | CapOutcome.rateLimited m => (Except.error m, [])
    | CapOutcome.failed m => (Except.error m, [])
  | remaining + 2, attempt =>
    match oracle attempt with
    | CapOutcome.ok s => (Except.ok s, [])
    | CapOutcome.failed m => (Except.error m, [])
    | CapOutcome.rateLimited _ =>
      let r := captureScreenGo oracle (remaining + 1) (attempt + 1)
      (r.1, 1500 :: r.2)

/-- `captureScreen(retries)` of `src/unnamed/part_000` (default `retries = 5`). -/
def captureScreen (oracle : ℕ → CapOutcome) (retries : ℕ) : Except String String × List ℕ :=
  captureScreenGo oracle retries 0

/-- The retry loop of `captureScreen` in `src/background.js`: every failure
(rate-limited or not) before the last attempt sleeps 2000 ms and retries;
a failure on the last attempt is rethrown. -/
def captureScreenBgGo (oracle : ℕ → CapOutcome) : ℕ → ℕ → Except String String × List ℕ
  | 0, _ => (Except.ok undefinedStr, [])
  | 1, attempt =>
    match oracle attempt with
    | CapOutcome.ok s => (Except.ok s, [])
    | CapOutcome.rateLimited m => (Except.error m, [])
    | CapOutcome.failed m => (Except.error m, [])
  | remaining + 2, attempt =>
    match oracle attempt with
    | CapOutcome.ok s => (Except.ok s, [])
    | CapOutcome.rateLimited _ =>
      let r := captureScreenBgGo oracle (remaining + 1) (attempt + 1)
      (r.1, 2000 :: r.2)
    | CapOutcome.failed _ =>
      let r := captureScreenBgGo oracle (remaining + 1) (attempt + 1)
      (r.1, 2000 :: r.2)

/-- `captureScreen(retries)` of `src/background.js` (default `retries = 5`). -/
def captureScreenBg (oracle : ℕ → CapOutcome) (retries : ℕ) : Except String String × List ℕ :=
  captureScreenBgGo oracle retries 0

/-! ## The scroll/capture loop and its segments -/

/-- One recorded capture region (`captureRegions.push` / `captures.push`):
source rectangle in device pixels and destination Y in device pixels. -/
structure Segment where
  sx : ℤ
  sy : ℤ
  sw : ℤ
  sh : ℤ
  dy : ℤ
deriving DecidableEq

/-- `cropTop = Math.max(0, articleTop - actualScrollY)`. -/
def cropTopAt (articleTop actualScrollY : ℤ) : ℤ := max 0 (articleTop - actualScrollY)

/-- `cropBottom = Math.min(viewportHeight, articleBottom - actualScrollY)`. -/
def cropBottomAt (articleBottom viewportHeight actualScrollY : ℤ) : ℤ :=
  min viewportHeight (articleBottom - actualScrollY)

/-- The segment recorded at one scroll step, with `actualScrollY = A`:
source rect scaled by the density `num/den` with `Math.floor`/`Math.ceil`,
destination `dy = Math.floor((actualScrollY + cropTop - articleTop) * density)`. -/
def segmentAt (articleTop articleBottom viewportHeight left width num den A : ℤ) : Segment :=
  let cropTop := cropTopAt articleTop A
  let cropBottom := cropBottomAt articleBottom viewportHeight A
  { sx := jsFloorMul left num den
    sy := jsFloorMul cropTop num den
    sw := jsCeilMul width num den
    sh := jsCeilMul (cropBottom - cropTop) num den
    dy := jsFloorMul (A + cropTop - articleTop) num den }

/-- `window.scrollTo` clamps the requested position to `[0, maxScroll]`. -/
def clampScroll (maxScroll y : ℤ) : ℤ := max 0 (min y maxScroll)

/-- The scroll/capture loop of `src/unnamed/part_000` (`captureArticle`,
step 4), viewed through the segments it records: every step pushes its
region unconditionally. `fuel` bounds the iterations (the loop guard
`currentY < articleBottom` is kept). -/
def part000LoopGo (articleTop articleBottom viewportHeight maxScroll left width num den : ℤ) :
    ℕ → ℤ → List Segment
  | 0, _ => []
  | fuel + 1, currentY =>
    if currentY < articleBottom then
      let A := clampScroll maxScroll currentY
      segmentAt articleTop articleBottom viewportHeight left width num den A ::
        part000LoopGo articleTop articleBottom viewportHeight maxScroll left width num den
          fuel (currentY + viewportHeight)
    else []

/-- The segment list produced by the `part_000` capture loop, starting at
`currentY = articleTop`. -/
def part000Loop (articleTop articleHeight viewportHeight maxScroll left width num den : ℤ) :
    List Segment :=
  part000LoopGo articleTop (articleTop + articleHeight) viewportHeight maxScroll left width
    num den (articleHeight.toNat + 1) articleTop

/-- The conditional push of the `src/background.js` loop: record the segment
only when `cropBottom > cropTop`. -/
def bgRecordAt (articleTop articleBottom viewportHeight left width num den A : ℤ) :
    List Segment :=
  if cropTopAt articleTop A < cropBottomAt articleBottom viewportHeight A then
    [segmentAt articleTop articleBottom viewportHeight left width num den A]
  else []

/-- The scroll/capture loop of `src/background.js` (`captureArticle`,
step 3): as `part000LoopGo` but with the `cropBottom > cropTop` guard on the
push. -/
def bgLoopGo (articleTop articleBottom viewportHeight maxScroll left width num den : ℤ) :
    ℕ → ℤ → List Segment
  | 0, _ => []
  | fuel + 1, currentY =>
    if currentY < articleBottom then
      let A := clampScroll maxScroll currentY
      bgRecordAt articleTop articleBottom viewportHeight left width num den A ++
        bgLoopGo articleTop articleBottom viewportHeight maxScroll left width num den
          fuel (currentY + viewportHeight)
    else []

/-- The segment list produced by the `src/background.js` capture loop. -/
def bgLoop (articleTop articleHeight viewportHeight maxScroll left width num den : ℤ) :
    List Segment :=
  bgLoopGo articleTop (articleTop + articleHeight) viewportHeight maxScroll left width
    num den (articleHeight.toNat + 1) articleTop

/-- `tilesInterval a b segs`: the destination windows `[dy, dy + sh)` of
`segs`, in order, exactly tile the interval `[a, b)`: each window starts
where the previous one ended, is nonempty, and the last one ends at `b`. -/
def tilesInterval : ℤ → ℤ → List Segment → Prop
  | a, b, [] => a = b
  | a, b, s :: rest => s.dy = a ∧ 0 < s.sh ∧ tilesInterval (a + s.sh) b rest

instance instDecidableTilesInterval : ∀ (l : List Segment) (a b : ℤ),
    Decidable (tilesInterval a b l)
  | [], a, b => inferInstanceAs (Decidable (a = b))
  | s :: rest, a, b =>
    have : Decidable (tilesInterval (a + s.sh) b rest) :=
      instDecidableTilesInterval rest (a + s.sh) b
    inferInstanceAs (Decidable (_ ∧ _ ∧ _))

/-! ## The full `part_000` pipeline state (noise hide/restore and scroll) -/

/-- The tab state the `part_000` pipeline mutates through messages: the
inline display styles of the article's children and the scroll position. -/
structure TabState where
  styles : ℕ → String
  scrollY : ℤ

/-- The capture loop of `captureArticle` in `src/unnamed/part_000`, with the
tab state threaded through: each step scrolls (clamped), captures with
`captureScreen(5)` (`stepOracle step` gives the outcomes of the capture
attempts of that step), and records a segment at the actual scroll position.
A capture failure propagates as the thrown error, with the state as it is at
that moment. -/
def part000Go (stepOracle : ℕ → ℕ → CapOutcome)
    (articleTop articleBottom viewportHeight maxScroll left width num den : ℤ) :
    ℕ → ℤ → ℕ → TabState → Except String (List Segment) × TabState
  | 0, _, _, st => (Except.ok [], st)
  | fuel + 1, currentY, step, st =>
    if currentY < articleBottom then
      let st1 : TabState := { st with scrollY := clampScroll maxScroll currentY }
      match captureScreen (stepOracle step) 5 with
      | (Except.error m, _) => (Except.error m, st1)
      | (Except.ok _, _) =>
        let A := st1.scrollY
        let seg := segmentAt articleTop articleBottom viewportHeight left width num den A
        let r := part000Go stepOracle articleTop articleBottom viewportHeight maxScroll left
          width num den fuel (currentY + viewportHeight) (step + 1) st1
        match r with
        | (Except.ok segs, st2) => (Except.ok (seg :: segs), st2)
        | (Except.error m, st2) => (Except.error m, st2)
    else (Except.ok [], st)

/-- `captureArticle` of `src/unnamed/part_000`, through noise restoration and
scroll restoration: hide the noisy children (step 2), save the scroll
position (step 3), run the capture loop (step 4), and — only when the loop
completed without throwing — restore the noise backup (step 5) and the scroll
position (step 6). A capture error propagates immediately, skipping both
restorations, as in the source (there is no try/finally around the loop). -/
def part000Pipeline (elements : List Elem) (stepOracle : ℕ → ℕ → CapOutcome)
    (articleTop articleHeight viewportHeight maxScroll left width num den : ℤ)
    (st0 : TabState) : Except String (List Segment) × TabState :=
  let idxs := noisyIndices elements
  let hr := hideAll st0.styles idxs
  let st1 : TabState := { st0 with styles := hr.1 }
  let originalScrollY := st1.scrollY
  let articleBottom := articleTop + articleHeight
  match part000Go stepOracle articleTop articleBottom viewportHeight maxScroll left width
    num den (articleHeight.toNat + 1) articleTop 0 st1 with
  | (Except.error m, st2) => (Except.error m, st2)
  | (Except.ok segs, st2) =>
    (Except.ok segs,
      { styles := restoreAll st2.styles hr.2
        scrollY := clampScroll maxScroll originalScrollY })

/-! ## Stitcher surface sizing -/

/-- The Chrome canvas dimension cap used by `combineAndExport`. -/
def MAX_DIM : ℤ := 16384

/-- The canvas pixel-count cap used by `combineAndExport`. -/
def MAX_PIXELS : ℤ := 268435456

/-- The output surface size chosen by `combineAndExport` in
`src/background.js`: `finalWidth × finalHeight`, unless a dimension exceeds
`MAX_DIM` or the pixel count exceeds `MAX_PIXELS`, in which case it falls
back to the CSS resolution `ceil(finalWidth/dpr) × ceil(finalHeight/dpr)`
(`dpr = num/den`). -/
def combineOutDims (finalWidth finalHeight num den : ℤ) : ℤ × ℤ :=
  let cssWidth := jsCeilMul finalWidth den num
  let cssHeight := jsCeilMul finalHeight den num
  if MAX_DIM < finalWidth ∨ MAX_DIM < finalHeight ∨ MAX_PIXELS < finalWidth * finalHeight then
    (cssWidth, cssHeight)
  else (finalWidth, finalHeight)

/-- The output surface size chosen by `combineImages` in `src/offscreen.js`:
always exactly `finalWidth × finalHeight`, with no cap check at all. -/
def offscreenOutDims (finalWidth finalHeight : ℤ) : ℤ × ℤ := (finalWidth, finalHeight)

/-- Modelled from the spec (the claim's formula, for comparison with the
code): the surface is `W*factor × H*factor` with
`factor = min(dimCap/W, dimCap/H, sqrt(pixelCap/(W*H)))` clamped to at most
1 when a cap is exceeded, and exactly `W × H` otherwise. The square root is
expressed by an existentially quantified nonnegative rational `s` with
`s^2 = MAX_PIXELS/(W*H)` (exact only when the radicand is a square, which
suffices to refute the claim on inputs where the minimum is attained by a
dimension ratio). -/
def SpecStitchSurface (W H w h : ℚ) : Prop :=
  ∃ s : ℚ, 0 ≤ s ∧ s ^ 2 = (MAX_PIXELS : ℚ) / (W * H) ∧
    ((((MAX_DIM : ℚ) < W ∨ (MAX_DIM : ℚ) < H ∨ (MAX_PIXELS : ℚ) < W * H) ∧
        w = W * min 1 (min (min ((MAX_DIM : ℚ) / W) ((MAX_DIM : ℚ) / H)) s) ∧
        h = H * min 1 (min (min ((MAX_DIM : ℚ) / W) ((MAX_DIM : ℚ) / H)) s)) ∨
      (¬((MAX_DIM : ℚ) < W ∨ (MAX_DIM : ℚ) < H ∨ (MAX_PIXELS : ℚ) < W * H) ∧
        w = W ∧ h = H))

/-! ## PDF pagination windows (`combineAndExport`, `src/background.js`) -/

/-- `scaledH = (outH / outW) * contentW`. -/
def pdfScaledH (outW outH : ℤ) (contentW : ℚ) : ℚ := ((outH : ℚ) / (outW : ℚ)) * contentW

/-- `totalPages = Math.ceil(scaledH / pageH)` where `pageH` is the per-page
content height. -/
def pdfTotalPages (outW outH : ℤ) (contentW pageContentH : ℚ) : ℤ :=
  ⌈pdfScaledH outW outH contentW / pageContentH⌉

/-- `srcYStart = Math.floor((page * pageH / scaledH) * outH)` (`page` is the
0-based loop counter). -/
def pdfSrcYStart (outW outH : ℤ) (contentW pageContentH : ℚ) (page : ℕ) : ℤ :=
  ⌊((page : ℚ) * pageContentH / pdfScaledH outW outH contentW) * (outH : ℚ)⌋

/-- `srcYEnd = Math.min(Math.floor(((page+1) * pageH / scaledH) * outH), outH)`. -/
def pdfSrcYEnd (outW outH : ℤ) (contentW pageContentH : ℚ) (page : ℕ) : ℤ :=
  min (pdfSrcYStart outW outH contentW pageContentH (page + 1)) outH

/-- The per-page source windows of the PDF loop, in page order. -/
def pdfWindows (outW outH : ℤ) (contentW pageContentH : ℚ) : List (ℤ × ℤ) :=
  (List.range (pdfTotalPages outW outH contentW pageContentH).toNat).map
    (fun p => (pdfSrcYStart outW outH contentW pageContentH p,
               pdfSrcYEnd outW outH contentW pageContentH p))

/-- `abutFrom a b ws`: the windows `[s, e)` of `ws`, in order, start at `a`,
abut exactly (each starts where the previous ended, with `s ≤ e`), and end
at `b`. -/
def abutFrom : ℤ → ℤ → List (ℤ × ℤ) → Prop
  | a, b, [] => a = b
  | a, b, (s, e) :: rest => s = a ∧ a ≤ e ∧ abutFrom e b rest

instance instDecidableAbutFrom : ∀ (l : List (ℤ × ℤ)) (a b : ℤ),
    Decidable (abutFrom a b l)
  | [], a, b => inferInstanceAs (Decidable (a = b))
  | (s, e) :: rest, a, b =>
    have : Decidable (abutFrom e b rest) := instDecidableAbutFrom rest e b
    inferInstanceAs (Decidable (_ ∧ _ ∧ _))

/-! ## Progress notifications -/

/-- The in-loop progress values of `captureArticle` in `src/unnamed/part_000`:
`Math.min(30 + Math.floor((step / totalSteps) * 50), 80)` for the 1-based
step counter. -/
def progressGo000 (articleBottom viewportHeight total : ℤ) : ℕ → ℤ → ℤ → List ℤ
  | 0, _, _ => []
  | fuel + 1, currentY, step =>
    if currentY < articleBottom then
      min (30 + jsFloorMul (step + 1) 50 total) 80 ::
        progressGo000 articleBottom viewportHeight total fuel (currentY + viewportHeight)
          (step + 1)
    else []

/-- The full percent sequence notified by `captureArticle` in
`src/unnamed/part_000`: 15 (detecting), 20 (detected), 30 (starting capture),
the per-step values, 85 (processing), 95 (saving). -/
def progressTrace000 (articleTop articleHeight viewportHeight : ℤ) : List ℤ :=
  [15, 20, 30] ++
    progressGo000 (articleTop + articleHeight) viewportHeight
      (jsCeilMul articleHeight 1 viewportHeight) (articleHeight.toNat + 1) articleTop 0 ++
    [85, 95]

/-- The in-loop progress values of `captureArticle` in `src/background.js`:
`20 + Math.floor((step / totalSteps) * 50)` for the 1-based step counter
(no upper clamp in this variant). -/
def progressGoBg (articleBottom viewportHeight total : ℤ) : ℕ → ℤ → ℤ → List ℤ
  | 0, _, _ => []
  | fuel + 1, currentY, step =>
    if currentY < articleBottom then
      (20 + jsFloorMul (step + 1) 50 total) ::
        progressGoBg articleBottom viewportHeight total fuel (currentY + viewportHeight)
          (step + 1)
    else []

/-- The full percent sequence notified by `captureArticle` in
`src/background.js`: 10 (detecting), 20 (detected), the per-step values,
75 (processing), 95 (saving). -/
def progressTraceBg (articleTop articleHeight viewportHeight : ℤ) : List ℤ :=
  [10, 20] ++
    progressGoBg (articleTop + articleHeight) viewportHeight
      (jsCeilMul articleHeight 1 viewportHeight) (articleHeight.toNat + 1) articleTop 0 ++
    [75, 95]

/-! ## Concrete fixtures -/

/-- A single noisy child (a `<nav>`, which is in `REMOVE_TAGS`). -/
def navLikeElem : Elem := { defaultElem with tag := "NAV" }

/-- An initial tab state: the noisy child has an empty inline `display`
(the usual case), and the page is scrolled to `y = 42`. -/
def initTab : TabState := { styles := fun _ => "", scrollY := 42 }

/-- A small document: one failed semantic query, one low-scoring candidate,
and a body element. -/
def smallDoc : Doc :=
  { semanticMatches := [none], candidates := [defaultElem], root := some navLikeElem }

/-! # Helper lemmas -/

theorem hideAll_backup_fsts (idxs : List ℕ) :
    ∀ styles : ℕ → String, ((hideAll styles idxs).2).map Prod.fst = idxs := by
  induction idxs with
  | nil => intro styles; rfl
  | cons i rest ih =>
    intro styles
    simp [hideAll, ih]

theorem restoreAll_update_comm (backup : List (ℕ × String)) :
    ∀ (σ : ℕ → String) (i : ℕ) (v : String), i ∉ backup.map Prod.fst →
      restoreAll (Function.update σ i v) backup =
        Function.update (restoreAll σ backup) i v := by
  induction backup with
  | nil => intro σ i v _; rfl
  | cons e rest ih =>
    intro σ i v hmem
    obtain ⟨j, o⟩ := e
    simp only [List.map_cons, List.mem_cons, not_or] at hmem
    obtain ⟨hij, hrest⟩ := hmem
    simp only [restoreAll]
    rw [Function.update_comm (by simpa using hij), ih _ i v hrest]

theorem restoreAll_hideAll (idxs : List ℕ) :
    ∀ styles : ℕ → String, idxs.Nodup →
      restoreAll (hideAll styles idxs).1 (hideAll styles idxs).2 = styles := by
  induction idxs with
  | nil => intro styles _; rfl
  | cons i rest ih =>
    intro styles hnd
    obtain ⟨hni, hnd'⟩ := List.nodup_cons.mp hnd
    simp only [hideAll, restoreAll]
    rw [restoreAll_update_comm _ _ _ _ (by rw [hideAll_backup_fsts]; exact hni)]
    rw [ih _ hnd', Function.update_idem, Function.update_eq_self]

theorem noisyIndices_nodup (elements : List Elem) : (noisyIndices elements).Nodup :=
  (List.nodup_range _).filter _

/-! # Claim C10 -/

/-- C10: `detectAndMeasure` leaves the document's visibility state unchanged:
every noise element it hides while measuring has its original display style
restored before the operation returns, so detection alone never leaves an
element hidden (and the error return paths never touch any style at all). -/
theorem detectAndMeasure_restores_styles (p : PageDoc) :
    (detectAndMeasure p).2 = p.styles := by
  unfold detectAndMeasure
  cases detectArticle p.doc with
  | none => rfl
  | some a =>
    exact restoreAll_hideAll _ _ (noisyIndices_nodup _)

/-! # Claim C8 -/

theorem linkPenalty_antitone {d1 d2 : ℚ} (h : d1 ≤ d2) :
    (if (1 : ℚ) / 2 < d2 then (-30 : ℚ) else 0) + (if (3 : ℚ) / 10 < d2 then (-15 : ℚ) else 0) ≤
      (if (1 : ℚ) / 2 < d1 then (-30 : ℚ) else 0) + (if (3 : ℚ) / 10 < d1 then (-15 : ℚ) else 0) := by
  split_ifs <;> linarith

/-- C8: the detection score is monotonically non-decreasing in the element's
paragraph count (in particular up to the paragraph-bonus cap), all other
features held fixed, and monotonically non-increasing in link density (all
other features held fixed), in particular not increasing when the density
crosses the 0.3 or 0.5 tier boundary. -/
theorem scoreElement_monotonicity :
    (∀ (el : Elem) (p1 p2 : ℕ), p1 ≤ p2 →
      scoreElement { el with pCount := p1 } ≤ scoreElement { el with pCount := p2 }) ∧
    (∀ (el : Elem) (l1 l2 : ℕ),
      getLinkDensity { el with linkLen := l1 } ≤ getLinkDensity { el with linkLen := l2 } →
      scoreElement { el with linkLen := l2 } ≤ scoreElement { el with linkLen := l1 }) := by
  constructor
  · intro el p1 p2 h
    have hmin : min ((p1 : ℚ) * 3) 30 ≤ min ((p2 : ℚ) * 3) 30 := by
      have : (p1 : ℚ) ≤ (p2 : ℚ) := by exact_mod_cast h
      exact min_le_min (by linarith) le_rfl
    simp only [scoreElement, getLinkDensity]
    linarith [hmin]
  · intro el l1 l2 h
    have hpen := linkPenalty_antitone h
    simp only [scoreElement] at *
    linarith [hpen]

/-- Evaluation of C8's theorem at a concrete element. -/
theorem scoreElement_monotonicity_witness :
    scoreElement { defaultElem with pCount := 2 } ≤ scoreElement { defaultElem with pCount := 7 } ∧
    scoreElement { defaultElem with linkLen := 3 } ≤ scoreElement { defaultElem with linkLen := 1 } :=
  ⟨scoreElement_monotonicity.1 defaultElem 2 7 (by decide),
   scoreElement_monotonicity.2 defaultElem 1 3 (by norm_num [getLinkDensity, defaultElem])⟩

/-! # Claim C7 -/

theorem heuristicBest_foldl_shape :
    ∀ (l : List Elem) (acc : Option (Elem × ℚ)),
      l.foldl heuristicStep acc = acc ∨
      ∃ el ∈ l, el.skipAncestor = false ∧ el.hiddenStyle = false ∧
        l.foldl heuristicStep acc = some (el, scoreElement el) := by
  intro l
  induction l with
  | nil => intro acc; exact Or.inl rfl
  | cons el rest ih =>
    intro acc
    rw [List.foldl_cons]
    rcases ih (heuristicStep acc el) with h | ⟨el', hmem, hsk, hhd, h⟩
    · rw [h]
      unfold heuristicStep
      by_cases hskip : el.skipAncestor || el.hiddenStyle
      · rw [if_pos hskip]; exact Or.inl rfl
      · rw [if_neg hskip]
        rw [Bool.or_eq_true, not_or, Bool.not_eq_true, Bool.not_eq_true] at hskip
        cases acc with
        | none =>
          exact Or.inr ⟨el, List.mem_cons_self _ _, hskip.1, hskip.2, rfl⟩
        | some p =>
          obtain ⟨b, bs⟩ := p
          by_cases hlt : bs < scoreElement el
          · exact Or.inr ⟨el, List.mem_cons_self _ _, hskip.1, hskip.2, by simp [hlt]⟩
          · exact Or.inl (by simp [hlt])
    · exact Or.inr ⟨el', List.mem_cons_of_mem _ hmem, hsk, hhd, h⟩

/-- C7: for every document that has a root element, `detectArticle` never
returns empty; and when no semantic query matches and every eligible
candidate scores below the acceptance threshold 10, it returns the document
root as fallback rather than failing. -/
theorem detectArticle_never_empty (doc : Doc) (r : Elem) (hroot : doc.root = some r) :
    (∃ el, detectArticle doc = some el) ∧
      (semanticPick doc = none →
        (∀ el ∈ doc.candidates, el.skipAncestor = false → el.hiddenStyle = false →
          scoreElement el < 10) →
        detectArticle doc = doc.root) := by
  unfold detectArticle
  cases hsem : semanticPick doc with
  | some el => exact ⟨⟨el, rfl⟩, fun hcontra => absurd hcontra (by simp)⟩
  | none =>
    rcases heuristicBest_foldl_shape doc.candidates none with h | ⟨el, hmem, hsk, hhd, h⟩
    · have hb : heuristicBest doc.candidates = none := h
      exact ⟨⟨r, by simp [hb, hroot]⟩, fun _ _ => by simp [hb]⟩
    · have hb : heuristicBest doc.candidates = some (el, scoreElement el) := h
      constructor
      · by_cases hlt : scoreElement el < 10
        · exact ⟨r, by simp [hb, hlt, hroot]⟩
        · exact ⟨el, by simp [hb, hlt]⟩
      · intro _ hall
        simp [hb, hall el hmem hsk hhd]

/-- Evaluation of C7's theorem at a concrete document: one candidate scoring
below 10, no semantic match, so the root is returned. -/
theorem detectArticle_never_empty_witness :
    (∃ el, detectArticle smallDoc = some el) ∧
      (semanticPick smallDoc = none →
        (∀ el ∈ smallDoc.candidates, el.skipAncestor = false → el.hiddenStyle = false →
          scoreElement el < 10) →
        detectArticle smallDoc = smallDoc.root) :=
  detectArticle_never_empty smallDoc navLikeElem rfl

/-! # Claim C4 -/

theorem jsCeilMul_le_self {x num den : ℤ} (hden : 0 < den) (hx : 0 ≤ x) (hnd : num ≤ den) :
    jsCeilMul x num den ≤ x := by
  unfold jsCeilMul
  have h1 : -x ≤ -(x * num) / den := by
    rw [Int.le_ediv_iff_mul_le hden]
    have : x * num ≤ x * den := mul_le_mul_of_nonneg_left hnd hx
    linarith
  linarith

/-- C4 counterexample: at `finalWidth = 20000`, `finalHeight = 10`,
`dpr = 2`, the code's surface is `10000 × 5` (the CSS-resolution fallback),
while the claim's factor formula would force width `16384` — so the code's
surface does not satisfy the claimed `W*factor × H*factor` shape. -/
theorem combine_surface_dims_counterexample :
    combineOutDims 20000 10 2 1 = (10000, 5) ∧
      ¬ SpecStitchSurface 20000 10 10000 5 := by
  refine ⟨by decide, ?_⟩
  rintro ⟨s, hs0, hs2, h | h⟩
  · obtain ⟨_, hw, _⟩ := h
    have hq1 : ((MAX_DIM : ℚ) / 20000) = 2048 / 2500 := by norm_num [MAX_DIM]
    have hq2 : ((MAX_DIM : ℚ) / 10) = 16384 / 10 := by norm_num [MAX_DIM]
    rw [hq1, hq2] at hw
    have hmin : min 1 (min (min ((2048 : ℚ) / 2500) ((16384 : ℚ) / 10)) s) = 1 / 2 := by
      linarith
    rcases le_total s (min ((2048 : ℚ) / 2500) ((16384 : ℚ) / 10)) with hle | hle
    · rw [min_eq_right hle] at hmin
      rcases le_total s 1 with h1 | h1
      · rw [min_eq_right h1] at hmin
        rw [hmin] at hs2
        norm_num [MAX_PIXELS] at hs2
      · rw [min_eq_left h1] at hmin
        norm_num at hmin
    · rw [min_eq_left hle] at hmin
      have : min ((2048 : ℚ) / 2500) ((16384 : ℚ) / 10) = (2048 : ℚ) / 2500 := by
        apply min_eq_left; norm_num
      rw [this] at hmin
      rcases le_total ((2048 : ℚ) / 2500) 1 with h1 | h1
      · rw [min_eq_right h1] at hmin
        norm_num at hmin
      · norm_num at h1
  · obtain ⟨hcaps, _, _⟩ := h
    exact hcaps (Or.inl (by norm_num [MAX_DIM]))

/-- C4 (amended): when a dimension exceeds `MAX_DIM` or the pixel count
exceeds `MAX_PIXELS`, `combineAndExport` allocates the surface at the CSS
resolution `ceil(finalWidth/dpr) × ceil(finalHeight/dpr)` (which shrinks
both dimensions when `dpr ≥ 1`), not at the claim's `W*factor × H*factor`;
when neither cap is exceeded the surface is exactly
`finalWidth × finalHeight`. The offscreen stitcher `combineImages` applies
no cap at all and always allocates `finalWidth × finalHeight`. -/
theorem combine_surface_dims_fallback (W H num den : ℤ)
    (hnum : 0 < num) (hden : 0 < den) (hdpr : den ≤ num) (hW : 0 ≤ W) (hH : 0 ≤ H) :
    ((MAX_DIM < W ∨ MAX_DIM < H ∨ MAX_PIXELS < W * H) →
      combineOutDims W H num den = (jsCeilMul W den num, jsCeilMul H den num) ∧
        (combineOutDims W H num den).1 ≤ W ∧ (combineOutDims W H num den).2 ≤ H) ∧
      (¬(MAX_DIM < W ∨ MAX_DIM < H ∨ MAX_PIXELS < W * H) →
        combineOutDims W H num den = (W, H)) ∧
      offscreenOutDims W H = (W, H) := by
  refine ⟨fun hcap => ?_, fun hcap => ?_, rfl⟩
  · have he : combineOutDims W H num den = (jsCeilMul W den num, jsCeilMul H den num) := by
      unfold combineOutDims
      rw [if_pos hcap]
    refine ⟨he, ?_, ?_⟩
    · rw [he]
      exact jsCeilMul_le_self hnum hW hdpr
    · rw [he]
      exact jsCeilMul_le_self hnum hH hdpr
  · unfold combineOutDims
    rw [if_neg hcap]

/-- Evaluation of C4's amended theorem at the counterexample input. -/
theorem combine_surface_dims_fallback_witness :
    combineOutDims 20000 10 2 1 = (jsCeilMul 20000 1 2, jsCeilMul 10 1 2) :=
  (((combine_surface_dims_fallback 20000 10 2 1 (by decide) (by decide) (by decide)
    (by decide) (by decide)).1) (by decide)).1

/-! # Claim C3 -/

theorem captureScreenGo_trace (oracle : ℕ → CapOutcome) :
    ∀ remaining : ℕ, 0 < remaining → ∀ attempt : ℕ,
      (captureScreenGo oracle remaining attempt).2 =
          List.replicate (captureScreenGo oracle remaining attempt).2.length 1500 ∧
        (captureScreenGo oracle remaining attempt).2.length + 1 ≤ remaining ∧
        (∀ i < (captureScreenGo oracle remaining attempt).2.length,
          ∃ m, oracle (attempt + i) = CapOutcome.rateLimited m) ∧
        ((∃ s, oracle (attempt + (captureScreenGo oracle remaining attempt).2.length) =
              CapOutcome.ok s ∧
            (captureScreenGo oracle remaining attempt).1 = Except.ok s) ∨
          (∃ m, oracle (attempt + (captureScreenGo oracle remaining attempt).2.length) =
              CapOutcome.failed m ∧
            (captureScreenGo oracle remaining attempt).1 = Except.error m) ∨
          (∃ m, oracle (attempt + (captureScreenGo oracle remaining attempt).2.length) =
              CapOutcome.rateLimited m ∧
            (captureScreenGo oracle remaining attempt).2.length + 1 = remaining ∧
            (captureScreenGo oracle remaining attempt).1 = Except.error m)) := by
  intro remaining
  induction remaining with
  | zero => intro h; omega
  | succ n ih =>
    intro _ attempt
    match n with
    | 0 =>
      cases horc : oracle attempt with
      | ok s =>
        have hgo : captureScreenGo oracle 1 attempt = (Except.ok s, []) := by
          simp [captureScreenGo, horc]
        rw [hgo]
        exact ⟨rfl, by simp, by simp, Or.inl ⟨s, by simpa using horc, rfl⟩⟩
      | rateLimited m =>
        have hgo : captureScreenGo oracle 1 attempt = (Except.error m, []) := by
          simp [captureScreenGo, horc]
        rw [hgo]
        exact ⟨rfl, by simp, by simp,
          Or.inr (Or.inr ⟨m, by simpa using horc, rfl, rfl⟩)⟩
      | failed m =>
        have hgo : captureScreenGo oracle 1 attempt = (Except.error m, []) := by
          simp [captureScreenGo, horc]
        rw [hgo]
        exact ⟨rfl, by simp, by simp, Or.inr (Or.inl ⟨m, by simpa using horc, rfl⟩)⟩
    | k + 1 =>
      cases horc : oracle attempt with
      | ok s =>
        have hgo : captureScreenGo oracle (k + 1 + 1) attempt = (Except.ok s, []) := by
          simp [captureScreenGo, horc]
        rw [hgo]
        exact ⟨rfl, by simp, by simp, Or.inl ⟨s, by simpa using horc, rfl⟩⟩
      | failed m =>
        have hgo : captureScreenGo oracle (k + 1 + 1) attempt = (Except.error m, []) := by
          simp [captureScreenGo, horc]
        rw [hgo]
        exact ⟨rfl, by simp, by simp, Or.inr (Or.inl ⟨m, by simpa using horc, rfl⟩)⟩
      | rateLimited m =>
        obtain ⟨ihrep, ihlen, ihrl, ihres⟩ := ih (by omega) (attempt + 1)
        have hgo : captureScreenGo oracle (k + 1 + 1) attempt =
            ((captureScreenGo oracle (k + 1) (attempt + 1)).1,
              1500 :: (captureScreenGo oracle (k + 1) (attempt + 1)).2) := by
          simp [captureScreenGo, horc]
        rw [hgo]
        refine ⟨?_, ?_, ?_, ?_⟩
        · simp only [List.length_cons, List.replicate_succ, List.cons.injEq]
          exact ⟨trivial, ihrep⟩
        · simp only [List.length_cons]
          omega
        · intro i hi
          simp only [List.length_cons] at hi
          match i with
          | 0 => exact ⟨m, by simpa using horc⟩
          | j + 1 =>
            have hj := ihrl j (by omega)
            simpa [Nat.add_comm, Nat.add_assoc, Nat.add_left_comm] using hj
        · have harith : attempt + (1500 :: (captureScreenGo oracle (k + 1) (attempt + 1)).2).length =
              attempt + 1 + (captureScreenGo oracle (k + 1) (attempt + 1)).2.length := by
            simp only [List.length_cons]
            omega
          rw [harith]
          rcases ihres with h | h | ⟨m', hm', hlen', hres'⟩
          · exact Or.inl h
          · exact Or.inr (Or.inl h)
          · refine Or.inr (Or.inr ⟨m', hm', ?_, hres'⟩)
            simp only [List.length_cons]
            omega

theorem captureScreenBgGo_trace (oracle : ℕ → CapOutcome) :
    ∀ remaining : ℕ, 0 < remaining → ∀ attempt : ℕ,
      (captureScreenBgGo oracle remaining attempt).2 =
          List.replicate (captureScreenBgGo oracle remaining attempt).2.length 2000 ∧
        (captureScreenBgGo oracle remaining attempt).2.length + 1 ≤ remaining ∧
        (∀ i < (captureScreenBgGo oracle remaining attempt).2.length,
          ∀ s, oracle (attempt + i) ≠ CapOutcome.ok s) ∧
        ((∃ s, oracle (attempt + (captureScreenBgGo oracle remaining attempt).2.length) =
              CapOutcome.ok s ∧
            (captureScreenBgGo oracle remaining attempt).1 = Except.ok s) ∨
          (∃ m, (oracle (attempt + (captureScreenBgGo oracle remaining attempt).2.length) =
                CapOutcome.rateLimited m ∨
              oracle (attempt + (captureScreenBgGo oracle remaining attempt).2.length) =
                CapOutcome.failed m) ∧
            (captureScreenBgGo oracle remaining attempt).2.length + 1 = remaining ∧
            (captureScreenBgGo oracle remaining attempt).1 = Except.error m)) := by
  intro remaining
  induction remaining with
  | zero => intro h; omega
  | succ n ih =>
    intro _ attempt
    match n with
    | 0 =>
      cases horc : oracle attempt with
      | ok s =>
        have hgo : captureScreenBgGo oracle 1 attempt = (Except.ok s, []) := by
          simp [captureScreenBgGo, horc]
        rw [hgo]
        exact ⟨rfl, by simp, by simp, Or.inl ⟨s, by simpa using horc, rfl⟩⟩
      | rateLimited m =>
        have hgo : captureScreenBgGo oracle 1 attempt = (Except.error m, []) := by
          simp [captureScreenBgGo, horc]
        rw [hgo]
        exact ⟨rfl, by simp, by simp,
          Or.inr ⟨m, Or.inl (by simpa using horc), rfl, rfl⟩⟩
      | failed m =>
        have hgo : captureScreenBgGo oracle 1 attempt = (Except.error m, []) := by
          simp [captureScreenBgGo, horc]
        rw [hgo]
        exact ⟨rfl, by simp, by simp,
          Or.inr ⟨m, Or.inr (by simpa using horc), rfl, rfl⟩⟩
    | k + 1 =>
      cases horc : oracle attempt with
      | ok s =>
        have hgo : captureScreenBgGo oracle (k + 1 + 1) attempt = (Except.ok s, []) := by
          simp [captureScreenBgGo, horc]
        rw [hgo]
        exact ⟨rfl, by simp, by simp, Or.inl ⟨s, by simpa using horc, rfl⟩⟩
      | rateLimited m =>
        obtain ⟨ihrep, ihlen, ihok, ihres⟩ := ih (by omega) (attempt + 1)
        have hgo : captureScreenBgGo oracle (k + 1 + 1) attempt =
            ((captureScreenBgGo oracle (k + 1) (attempt + 1)).1,
              2000 :: (captureScreenBgGo oracle (k + 1) (attempt + 1)).2) := by
          simp [captureScreenBgGo, horc]
        rw [hgo]
        refine ⟨?_, ?_, ?_, ?_⟩
        · simp only [List.length_cons, List.replicate_succ, List.cons.injEq]
          exact ⟨trivial, ihrep⟩
        · simp only [List.length_cons]; omega
        · intro i hi
          simp only [List.length_cons] at hi
          match i with
          | 0 => intro s; simp [horc]
          | j + 1 =>
            have hj := ihok j (by omega)
            simpa [Nat.add_comm, Nat.add_assoc, Nat.add_left_comm] using hj
        · have harith : attempt +
              (2000 :: (captureScreenBgGo oracle (k + 1) (attempt + 1)).2).length =
              attempt + 1 + (captureScreenBgGo oracle (k + 1) (attempt + 1)).2.length := by
            simp only [List.length_cons]; omega
          rw [harith]
          rcases ihres with h | ⟨m', hm', hlen', hres'⟩
          · exact Or.inl h
          · refine Or.inr ⟨m', hm', ?_, hres'⟩
            simp only [List.length_cons]; omega
      | failed m =>
        obtain ⟨ihrep, ihlen, ihok, ihres⟩ := ih (by omega) (attempt + 1)
        have hgo : captureScreenBgGo oracle (k + 1 + 1) attempt =
            ((captureScreenBgGo oracle (k + 1) (attempt + 1)).1,
              2000 :: (captureScreenBgGo oracle (k + 1) (attempt + 1)).2) := by
          simp [captureScreenBgGo, horc]
        rw [hgo]
        refine ⟨?_, ?_, ?_, ?_⟩
        · simp only [List.length_cons, List.replicate_succ, List.cons.injEq]
          exact ⟨trivial, ihrep⟩
        · simp only [List.length_cons]; omega
        · intro i hi
          simp only [List.length_cons] at hi
          match i with
          | 0 => intro s; simp [horc]
          | j + 1 =>
            have hj := ihok j (by omega)
            simpa [Nat.add_comm, Nat.add_assoc, Nat.add_left_comm] using hj
        · have harith : attempt +
              (2000 :: (captureScreenBgGo oracle (k + 1) (attempt + 1)).2).length =
              attempt + 1 + (captureScreenBgGo oracle (k + 1) (attempt + 1)).2.length := by
            simp only [List.length_cons]; omega
          rw [harith]
          rcases ihres with h | ⟨m', hm', hlen', hres'⟩
          · exact Or.inl h
          · refine Or.inr ⟨m', hm', ?_, hres'⟩
            simp only [List.length_cons]; omega

/-- C3 counterexample: the delays are not escalating — a permanently
rate-limited capture in the `part_000` pipeline sleeps a constant 1500 ms
four times (so the delay sequence is not strictly increasing as the claim's
"escalating delay" requires) — and the `src/background.js` variant retries a
non-rate-limit failure instead of propagating it immediately (it succeeds
after one 2000 ms sleep). -/
theorem captureScreen_retry_counterexample :
    (captureScreen (fun _ => CapOutcome.rateLimited ("quota")) 5).2 =
        [1500, 1500, 1500, 1500] ∧
      ¬ List.Chain' (· < ·) (captureScreen (fun _ => CapOutcome.rateLimited ("quota")) 5).2 ∧
      captureScreenBg
          (fun n => if n = 0 then CapOutcome.failed ("boom") else CapOutcome.ok ("img")) 5 =
        (Except.ok ("img"), [2000]) := by
  refine ⟨rfl, ?_, rfl⟩
  intro h
  have h' : List.Chain' (· < ·) ([1500, 1500, 1500, 1500] : List ℕ) := h
  simp [List.chain'_cons] at h'

/-- C3 (amended): the `part_000` `captureScreen` retries only rate-limit
failures, sleeping a constant (not escalating) 1500 ms between attempts, up
to the attempt cap; a success or a non-rate-limit failure at any attempt
returns/propagates immediately with no further sleep, and rate-limit
exhaustion of the cap propagates the rate-limit error. The
`src/background.js` variant retries any failure (not only rate limits) with
a constant 2000 ms sleep up to its cap. -/
theorem captureScreen_retry_policy (oracle : ℕ → CapOutcome) (retries : ℕ)
    (hr : 0 < retries) :
    ((captureScreen oracle retries).2 =
        List.replicate (captureScreen oracle retries).2.length 1500 ∧
      (captureScreen oracle retries).2.length + 1 ≤ retries ∧
      (∀ i < (captureScreen oracle retries).2.length,
        ∃ m, oracle i = CapOutcome.rateLimited m) ∧
      ((∃ s, oracle (captureScreen oracle retries).2.length = CapOutcome.ok s ∧
          (captureScreen oracle retries).1 = Except.ok s) ∨
        (∃ m, oracle (captureScreen oracle retries).2.length = CapOutcome.failed m ∧
          (captureScreen oracle retries).1 = Except.error m) ∨
        (∃ m, oracle (captureScreen oracle retries).2.length = CapOutcome.rateLimited m ∧
          (captureScreen oracle retries).2.length + 1 = retries ∧
          (captureScreen oracle retries).1 = Except.error m))) ∧
    ((captureScreenBg oracle retries).2 =
        List.replicate (captureScreenBg oracle retries).2.length 2000 ∧
      (captureScreenBg oracle retries).2.length + 1 ≤ retries ∧
      (∀ i < (captureScreenBg oracle retries).2.length,
        ∀ s, oracle i ≠ CapOutcome.ok s) ∧
      ((∃ s, oracle (captureScreenBg oracle retries).2.length = CapOutcome.ok s ∧
          (captureScreenBg oracle retries).1 = Except.ok s) ∨
        (∃ m, (oracle (captureScreenBg oracle retries).2.length = CapOutcome.rateLimited m ∨
            oracle (captureScreenBg oracle retries).2.length = CapOutcome.failed m) ∧
          (captureScreenBg oracle retries).2.length + 1 = retries ∧
          (captureScreenBg oracle retries).1 = Except.error m))) := by
  constructor
  · have h := captureScreenGo_trace oracle retries hr 0
    simpa [captureScreen] using h
  · have h := captureScreenBgGo_trace oracle retries hr 0
    simpa [captureScreenBg] using h

/-- Evaluation of C3's amended theorem: two rate limits then a success give
exactly two constant 1500 ms sleeps. -/
theorem captureScreen_retry_policy_witness :
    (captureScreen (fun n => if n < 2 then CapOutcome.rateLimited ("q") else CapOutcome.ok ("img")) 5).2 =
      List.replicate (captureScreen
        (fun n => if n < 2 then CapOutcome.rateLimited ("q") else CapOutcome.ok ("img")) 5).2.length
        1500 :=
  (captureScreen_retry_policy
    (fun n => if n < 2 then CapOutcome.rateLimited ("q") else CapOutcome.ok ("img")) 5
    (by decide)).1.1

/-! # Claim C1 -/

/-- C1: the `part_000` pipeline does NOT restore noise visibility or the
scroll position on the capture-failure exit path. With one noisy child
(original display ""), initial scroll 42, and a capture primitive that fails
with a non-rate-limit error at the first step, the pipeline propagates the
error while the noisy child is still hidden (`display: none`) and the scroll
is left at the capture position 0 instead of 42. On the success path (the
same pipeline with a succeeding capture primitive) both are restored. -/
theorem part000Pipeline_restore_on_exit_paths :
    (part000Pipeline [navLikeElem] (fun _ _ => CapOutcome.failed ("boom"))
        0 10 10 100 0 10 1 1 initTab).1 = Except.error ("boom") ∧
      ((part000Pipeline [navLikeElem] (fun _ _ => CapOutcome.failed ("boom"))
          0 10 10 100 0 10 1 1 initTab).2).styles 0 = displayNone ∧
      initTab.styles 0 ≠ displayNone ∧
      ((part000Pipeline [navLikeElem] (fun _ _ => CapOutcome.failed ("boom"))
          0 10 10 100 0 10 1 1 initTab).2).scrollY = 0 ∧
      initTab.scrollY = 42 ∧
      ((part000Pipeline [navLikeElem] (fun _ _ => CapOutcome.ok ("img"))
          0 10 10 100 0 10 1 1 initTab).2).styles 0 = initTab.styles 0 ∧
      ((part000Pipeline [navLikeElem] (fun _ _ => CapOutcome.ok ("img"))
          0 10 10 100 0 10 1 1 initTab).2).scrollY = initTab.scrollY := by
  refine ⟨rfl, rfl, by decide, rfl, rfl, rfl, rfl⟩

/-! # Claim C6 -/

theorem cropGap_pos (T B V maxScroll y : ℤ) (hT : 0 ≤ T) (hV : 0 < V)
    (hms : 0 ≤ maxScroll) (hpage : B ≤ maxScroll + V) (hy : T ≤ y) (hyB : y < B) :
    cropTopAt T (clampScroll maxScroll y) < cropBottomAt B V (clampScroll maxScroll y) := by
  unfold cropTopAt cropBottomAt clampScroll
  omega

theorem one_le_jsCeilMul {x num den : ℤ} (hx : 0 < x) (hnum : 0 < num) (hden : 0 < den) :
    1 ≤ jsCeilMul x num den := by
  unfold jsCeilMul
  have hlt : (-(x * num)) / den < 0 := by
    by_contra hge
    push_neg at hge
    have h0 := (Int.le_ediv_iff_mul_le hden).mp hge
    have hpos : 0 < x * num := mul_pos hx hnum
    linarith
  omega

theorem part000LoopGo_sh_pos (T B V maxScroll l w num den : ℤ)
    (hT : 0 ≤ T) (hV : 0 < V) (hnum : 0 < num) (hden : 0 < den)
    (hms : 0 ≤ maxScroll) (hpage : B ≤ maxScroll + V) :
    ∀ (fuel : ℕ) (y : ℤ), T ≤ y →
      ∀ seg ∈ part000LoopGo T B V maxScroll l w num den fuel y, 0 < seg.sh := by
  intro fuel
  induction fuel with
  | zero => intro y _ seg hseg; simp [part000LoopGo] at hseg
  | succ n ih =>
    intro y hy seg hseg
    by_cases hyB : y < B
    · rw [part000LoopGo, if_pos hyB] at hseg
      rcases List.mem_cons.mp hseg with h | h
      · subst h
        have hcrop := cropGap_pos T B V maxScroll y hT hV hms hpage hy hyB
        simp only [segmentAt]
        have hone := one_le_jsCeilMul (x := cropBottomAt B V (clampScroll maxScroll y) -
          cropTopAt T (clampScroll maxScroll y)) (by omega) hnum hden
        omega
      · exact ih (y + V) (by omega) seg h
    · rw [part000LoopGo, if_neg hyB] at hseg
      simp at hseg

theorem bgLoopGo_sh_pos (T B V maxScroll l w num den : ℤ)
    (hT : 0 ≤ T) (hV : 0 < V) (hnum : 0 < num) (hden : 0 < den)
    (hms : 0 ≤ maxScroll) (hpage : B ≤ maxScroll + V) :
    ∀ (fuel : ℕ) (y : ℤ), T ≤ y →
      ∀ seg ∈ bgLoopGo T B V maxScroll l w num den fuel y, 0 < seg.sh := by
  intro fuel
  induction fuel with
  | zero => intro y _ seg hseg; simp [bgLoopGo] at hseg
  | succ n ih =>
    intro y hy seg hseg
    by_cases hyB : y < B
    · rw [bgLoopGo, if_pos hyB] at hseg
      rcases List.mem_append.mp hseg with h | h
      · have hcrop := cropGap_pos T B V maxScroll y hT hV hms hpage hy hyB
        unfold bgRecordAt at h
        rw [if_pos hcrop] at h
        rcases List.mem_singleton.mp h with rfl
        simp only [segmentAt]
        have hone := one_le_jsCeilMul (x := cropBottomAt B V (clampScroll maxScroll y) -
          cropTopAt T (clampScroll maxScroll y)) (by omega) hnum hden
        omega
      · exact ih (y + V) (by omega) seg h
    · rw [bgLoopGo, if_neg hyB] at hseg
      simp at hseg

/-- C6: the `src/background.js` loop records no segment at a step where
`cropBottom <= cropTop` (first conjunct, with no geometry assumptions); and
when the detected article lies within the scrollable page
(`0 ≤ articleTop`, `articleBottom ≤ maxScroll + viewportHeight`), every
segment recorded by either capture loop has strictly positive source height
`sh` (in `part_000` the push is unconditional, but under this geometry every
step in fact has `cropBottom > cropTop`). -/
theorem capture_segments_positive_height
    (T H V maxScroll l w num den : ℤ)
    (hT : 0 ≤ T) (hV : 0 < V) (hnum : 0 < num) (hden : 0 < den)
    (hms : 0 ≤ maxScroll) (hpage : T + H ≤ maxScroll + V) :
    (∀ (T' B' V' l' w' num' den' A : ℤ),
      cropBottomAt B' V' A ≤ cropTopAt T' A →
      bgRecordAt T' B' V' l' w' num' den' A = []) ∧
      (∀ seg ∈ part000Loop T H V maxScroll l w num den, 0 < seg.sh) ∧
      (∀ seg ∈ bgLoop T H V maxScroll l w num den, 0 < seg.sh) := by
  refine ⟨?_, ?_, ?_⟩
  · intro T' B' V' l' w' num' den' A hle
    unfold bgRecordAt
    rw [if_neg (not_lt.mpr hle)]
  · intro seg hseg
    exact part000LoopGo_sh_pos T (T + H) V maxScroll l w num den hT hV hnum hden hms hpage
      _ T le_rfl seg hseg
  · intro seg hseg
    exact bgLoopGo_sh_pos T (T + H) V maxScroll l w num den hT hV hnum hden hms hpage
      _ T le_rfl seg hseg

/-- Evaluation of C6's theorem at a concrete geometry and the first recorded
segment. -/
theorem capture_segments_positive_height_witness :
    0 < (segmentAt 0 25 10 0 10 1 1 0).sh :=
  (capture_segments_positive_height 0 25 10 100 0 10 1 1 (by decide) (by decide) (by decide)
    (by decide) (by decide) (by decide)).2.1 (segmentAt 0 25 10 0 10 1 1 0) (by decide)

/-! # Claim C2 -/

/-- C2 counterexample: the capture-loop segments do not tile the destination
interval for every pixel density and geometry. With `articleTop = 0`,
`articleHeight = 14 > 0`, `viewportHeight = 7 ≤ 14` and density `3/2`
(unclamped scrolling), the two segments are `[0, 11)` and `[10, 21)` — they
overlap at row 10 (destination height `ceil(14 * 3/2) = 21`). And even at
density 1, with `articleHeight = 15`, `viewportHeight = 10` and
`maxScroll = 5` (the page cannot scroll past 5), the segments are `[0, 10)`
and `[5, 15)` — the clamped last scroll makes them overlap. -/
theorem captureLoop_tiling_counterexample :
    ¬ tilesInterval 0 21 (part000Loop 0 14 7 100 0 10 3 2) ∧
      ¬ tilesInterval 0 15 (part000Loop 0 15 10 5 0 10 1 1) := by
  decide

theorem part000LoopGo_tiles (T B V maxScroll l w d : ℤ)
    (hT : 0 ≤ T) (hV : 0 < V) (hd : 0 < d) (hclamp : B ≤ maxScroll + 1) :
    ∀ (fuel : ℕ) (y : ℤ), T ≤ y → B - y ≤ (fuel : ℤ) →
      tilesInterval ((min y B - T) * d) ((B - T) * d)
        (part000LoopGo T B V maxScroll l w d 1 fuel y) := by
  intro fuel
  induction fuel with
  | zero =>
    intro y hy hfuel
    have hmin : min y B = B := by omega
    rw [hmin]
    simp [part000LoopGo, tilesInterval]
  | succ n ih =>
    intro y hy hfuel
    by_cases hyB : y < B
    · rw [part000LoopGo, if_pos hyB]
      have hyc : clampScroll maxScroll y = y := by unfold clampScroll; omega
      have hminy : min y B = y := by omega
      rw [hminy]
      have hct : cropTopAt T y = 0 := by unfold cropTopAt; omega
      have hcb : cropBottomAt B V y = min V (B - y) := rfl
      refine ⟨?_, ?_, ?_⟩
      · simp only [segmentAt, hyc, hct, jsFloorMul, Int.ediv_one]
        ring
      · simp only [segmentAt, hyc, hct, hcb, jsCeilMul, Int.ediv_one]
        have hminpos : 0 < min V (B - y) := by omega
        have := mul_pos hminpos hd
        nlinarith [this]
      · simp only [segmentAt, hyc, hct, hcb, jsCeilMul, Int.ediv_one]
        have harg : (y - T) * d + -(-((min V (B - y) - 0) * d)) =
            (min (y + V) B - T) * d := by
          rw [neg_neg, ← add_mul]
          congr 1
          omega
        have htail := ih (y + V) (by omega) (by omega)
        rw [harg]
        exact htail
    · rw [part000LoopGo, if_neg hyB]
      have hmin : min y B = B := by omega
      rw [hmin]
      simp [tilesInterval]

theorem bgLoopGo_eq_part000LoopGo (T B V maxScroll l w num den : ℤ)
    (hT : 0 ≤ T) (hV : 0 < V) (hms : 0 ≤ maxScroll) (hpage : B ≤ maxScroll + V) :
    ∀ (fuel : ℕ) (y : ℤ), T ≤ y →
      bgLoopGo T B V maxScroll l w num den fuel y =
        part000LoopGo T B V maxScroll l w num den fuel y := by
  intro fuel
  induction fuel with
  | zero => intro y _; rfl
  | succ n ih =>
    intro y hy
    by_cases hyB : y < B
    · rw [bgLoopGo, part000LoopGo, if_pos hyB, if_pos hyB]
      have hcrop := cropGap_pos T B V maxScroll y hT hV hms hpage hy hyB
      unfold bgRecordAt
      dsimp only
      rw [if_pos hcrop, ih (y + V) (by omega)]
      rfl
    · rw [bgLoopGo, part000LoopGo, if_neg hyB, if_neg hyB]

/-- C2 (amended): under unclamped scrolling (every requested scroll position
up to `articleBottom - 1` is within the page's scroll range) and a positive
integer pixel density `d`, the segments of both capture loops exactly tile
`[0, articleHeight * d)` in destination space with zero gaps and zero
overlaps. (For a non-integer density, or when the scroll clamps at the page
end, adjacent segments can overlap — see the counterexample.) -/
theorem captureLoop_tiles_integer_density (T H V maxScroll l w d : ℤ)
    (hT : 0 ≤ T) (hV : 0 < V) (hVH : V ≤ H) (hd : 0 < d)
    (hclamp : T + H ≤ maxScroll + 1) :
    tilesInterval 0 (H * d) (part000Loop T H V maxScroll l w d 1) ∧
      tilesInterval 0 (H * d) (bgLoop T H V maxScroll l w d 1) := by
  have h1 := part000LoopGo_tiles T (T + H) V maxScroll l w d hT hV hd hclamp
    (H.toNat + 1) T le_rfl (by omega)
  have e1 : (min T (T + H) - T) * d = 0 := by
    have : min T (T + H) = T := by omega
    rw [this]; ring
  have e2 : (T + H - T) * d = H * d := by ring_nf
  rw [e1, e2] at h1
  constructor
  · exact h1
  · have hbg : bgLoop T H V maxScroll l w d 1 =
        part000LoopGo T (T + H) V maxScroll l w d 1 (H.toNat + 1) T :=
      bgLoopGo_eq_part000LoopGo T (T + H) V maxScroll l w d 1 hT hV (by omega) (by omega)
        (H.toNat + 1) T le_rfl
    rw [hbg]
    exact h1

/-- Evaluation of C2's amended theorem: height 20, viewport 10, density 2
tiles `[0, 40)`. -/
theorem captureLoop_tiles_integer_density_witness :
    tilesInterval 0 (20 * 2) (part000Loop 0 20 10 100 0 10 2 1) :=
  (captureLoop_tiles_integer_density 0 20 10 100 0 10 2 (by decide) (by decide) (by decide)
    (by decide) (by decide)).1

/-! # Claim C9 -/

theorem mem_list_of_getLast_opt {α} {l : List α} {x : α} (h : x ∈ l.getLast?) : x ∈ l := by
  obtain ⟨hne, rfl⟩ := List.mem_getLast?_eq_getLast h
  exact List.getLast_mem hne

theorem jsFloorMul_nonneg {x num den : ℤ} (hx : 0 ≤ x) (hn : 0 ≤ num) (hd : 0 ≤ den) :
    0 ≤ jsFloorMul x num den :=
  Int.ediv_nonneg (mul_nonneg hx hn) hd

theorem jsFloorMul_mono_left {x y num den : ℤ} (hd : 0 < den) (hn : 0 ≤ num) (h : x ≤ y) :
    jsFloorMul x num den ≤ jsFloorMul y num den :=
  Int.ediv_le_ediv hd (mul_le_mul_of_nonneg_right h hn)

theorem jsFloorMul_le_of_le_den {s total c : ℤ} (htot : 0 < total) (hc : 0 ≤ c)
    (h : s ≤ total) : jsFloorMul s c total ≤ c := by
  have h1 : jsFloorMul s c total ≤ jsFloorMul total c total :=
    jsFloorMul_mono_left htot hc h
  have h2 : jsFloorMul total c total = c := by
    unfold jsFloorMul
    exact Int.mul_ediv_cancel_left c (by omega)
  omega

theorem progressGo000_mem_bounds (B V total : ℤ) (htot : 0 < total) :
    ∀ (fuel : ℕ) (y s : ℤ), 0 ≤ s →
      ∀ x ∈ progressGo000 B V total fuel y s, 30 ≤ x ∧ x ≤ 80 := by
  intro fuel
  induction fuel with
  | zero => intro y s _ x hx; simp [progressGo000] at hx
  | succ n ih =>
    intro y s hs x hx
    by_cases hyB : y < B
    · rw [progressGo000, if_pos hyB] at hx
      rcases List.mem_cons.mp hx with rfl | hx
      · have h0 : 0 ≤ jsFloorMul (s + 1) 50 total :=
          jsFloorMul_nonneg (by omega) (by omega) (by omega)
        constructor
        · exact le_min (by omega) (by omega)
        · exact min_le_right _ _
      · exact ih (y + V) (s + 1) (by omega) x hx
    · rw [progressGo000, if_neg hyB] at hx
      simp at hx

theorem progressGo000_ge (B V total : ℤ) (htot : 0 < total) :
    ∀ (fuel : ℕ) (y s : ℤ), 0 ≤ s →
      ∀ x ∈ progressGo000 B V total fuel y s,
        min (30 + jsFloorMul (s + 1) 50 total) 80 ≤ x := by
  intro fuel
  induction fuel with
  | zero => intro y s _ x hx; simp [progressGo000] at hx
  | succ n ih =>
    intro y s hs x hx
    by_cases hyB : y < B
    · rw [progressGo000, if_pos hyB] at hx
      rcases List.mem_cons.mp hx with rfl | hx
      · exact le_rfl
      · have hmono : min (30 + jsFloorMul (s + 1) 50 total) 80 ≤
            min (30 + jsFloorMul (s + 1 + 1) 50 total) 80 := by
          have := jsFloorMul_mono_left (x := s + 1) (y := s + 1 + 1) htot
            (by omega : (0:ℤ) ≤ 50) (by omega)
          exact min_le_min (by omega) le_rfl
        exact le_trans hmono (ih (y + V) (s + 1) (by omega) x hx)
    · rw [progressGo000, if_neg hyB] at hx
      simp at hx

theorem progressGo000_chain (B V total : ℤ) (htot : 0 < total) :
    ∀ (fuel : ℕ) (y s : ℤ), 0 ≤ s →
      List.Chain' (· ≤ ·) (progressGo000 B V total fuel y s) := by
  intro fuel
  induction fuel with
  | zero => intro y s _; simp [progressGo000]
  | succ n ih =>
    intro y s hs
    by_cases hyB : y < B
    · rw [progressGo000, if_pos hyB]
      rw [List.chain'_cons']
      refine ⟨?_, ih (y + V) (s + 1) (by omega)⟩
      intro z hz
      have hmem : z ∈ progressGo000 B V total n (y + V) (s + 1) :=
        List.mem_of_mem_head? hz
      have hge := progressGo000_ge B V total htot n (y + V) (s + 1) (by omega) z hmem
      have hmono : min (30 + jsFloorMul (s + 1) 50 total) 80 ≤
          min (30 + jsFloorMul (s + 1 + 1) 50 total) 80 := by
        have := jsFloorMul_mono_left (x := s + 1) (y := s + 1 + 1) htot
          (by omega : (0:ℤ) ≤ 50) (by omega)
        exact min_le_min (by omega) le_rfl
      omega
    · rw [progressGo000, if_neg hyB]
      simp

theorem progressGoBg_mem_bounds (B V total : ℤ) (htot : 0 < total) (hV : 0 < V) :
    ∀ (fuel : ℕ) (y s : ℤ), 0 ≤ s → B - y ≤ (total - s) * V →
      ∀ x ∈ progressGoBg B V total fuel y s, 20 ≤ x ∧ x ≤ 70 := by
  intro fuel
  induction fuel with
  | zero => intro y s _ _ x hx; simp [progressGoBg] at hx
  | succ n ih =>
    intro y s hs hinv x hx
    by_cases hyB : y < B
    · rw [progressGoBg, if_pos hyB] at hx
      have hsts : s + 1 ≤ total := by
        by_contra hcon
        push_neg at hcon
        have hst : total - s ≤ 0 := by omega
        have : (total - s) * V ≤ 0 := mul_nonpos_of_nonpos_of_nonneg hst (by omega)
        linarith
      have hinv' : B - (y + V) ≤ (total - (s + 1)) * V := by
        have hexp : (total - (s + 1)) * V = (total - s) * V - V := by ring
        linarith [hexp.ge, hexp.le]
      rcases List.mem_cons.mp hx with rfl | hx
      · have h0 : 0 ≤ jsFloorMul (s + 1) 50 total :=
          jsFloorMul_nonneg (by omega) (by omega) (by omega)
        have h50 : jsFloorMul (s + 1) 50 total ≤ 50 :=
          jsFloorMul_le_of_le_den htot (by omega) hsts
        omega
      · exact ih (y + V) (s + 1) (by omega) hinv' x hx
    · rw [progressGoBg, if_neg hyB] at hx
      simp at hx

theorem progressGoBg_ge (B V total : ℤ) (htot : 0 < total) :
    ∀ (fuel : ℕ) (y s : ℤ), 0 ≤ s →
      ∀ x ∈ progressGoBg B V total fuel y s,
        20 + jsFloorMul (s + 1) 50 total ≤ x := by
  intro fuel
  induction fuel with
  | zero => intro y s _ x hx; simp [progressGoBg] at hx
  | succ n ih =>
    intro y s hs x hx
    by_cases hyB : y < B
    · rw [progressGoBg, if_pos hyB] at hx
      rcases List.mem_cons.mp hx with rfl | hx
      · exact le_rfl
      · have hmono := jsFloorMul_mono_left (x := s + 1) (y := s + 1 + 1) htot
          (by omega : (0:ℤ) ≤ 50) (by omega)
        have := ih (y + V) (s + 1) (by omega) x hx
        omega
    · rw [progressGoBg, if_neg hyB] at hx
      simp at hx

theorem progressGoBg_chain (B V total : ℤ) (htot : 0 < total) :
    ∀ (fuel : ℕ) (y s : ℤ), 0 ≤ s →
      List.Chain' (· ≤ ·) (progressGoBg B V total fuel y s) := by
  intro fuel
  induction fuel with
  | zero => intro y s _; simp [progressGoBg]
  | succ n ih =>
    intro y s hs
    by_cases hyB : y < B
    · rw [progressGoBg, if_pos hyB]
      rw [List.chain'_cons']
      refine ⟨?_, ih (y + V) (s + 1) (by omega)⟩
      intro z hz
      have hmem : z ∈ progressGoBg B V total n (y + V) (s + 1) :=
        List.mem_of_mem_head? hz
      have hge := progressGoBg_ge B V total htot n (y + V) (s + 1) (by omega) z hmem
      have hmono := jsFloorMul_mono_left (x := s + 1) (y := s + 1 + 1) htot
        (by omega : (0:ℤ) ≤ 50) (by omega)
      omega
    · rw [progressGoBg, if_neg hyB]
      simp

theorem jsCeilMul_pos_total {H V : ℤ} (hH : 0 < H) (hV : 0 < V) :
    0 < jsCeilMul H 1 V := by
  have := @one_le_jsCeilMul H 1 V hH (by omega) hV
  omega

theorem le_jsCeilMul_mul {H V : ℤ} (hV : 0 < V) : H ≤ jsCeilMul H 1 V * V := by
  have hle := Int.ediv_mul_le (-(H * 1)) (by omega : V ≠ 0)
  have hrw : jsCeilMul H 1 V * V = -((-(H * 1)) / V * V) := by
    unfold jsCeilMul; ring
  omega

/-- C9: within one capture request, the progress percents emitted by
`captureArticle` — in both the `part_000` pipeline (15, 20, 30, the per-step
values capped at 80, 85, 95) and the `src/background.js` pipeline (10, 20,
the per-step values, 75, 95) — are monotonically non-decreasing and always
within `0..100`, for every article height (i.e. every number of capture
steps). -/
theorem progress_monotone_bounded (T H V : ℤ) (hV : 0 < V) :
    (List.Chain' (· ≤ ·) (progressTrace000 T H V) ∧
      ∀ x ∈ progressTrace000 T H V, 0 ≤ x ∧ x ≤ 100) ∧
    (List.Chain' (· ≤ ·) (progressTraceBg T H V) ∧
      ∀ x ∈ progressTraceBg T H V, 0 ≤ x ∧ x ≤ 100) := by
  by_cases hH : 0 < H
  case neg =>
    have hfuel : H.toNat + 1 = 0 + 1 := by omega
    have h000 : progressGo000 (T + H) V (jsCeilMul H 1 V) (H.toNat + 1) T 0 = [] := by
      rw [hfuel, progressGo000, if_neg (by omega)]
    have hbg : progressGoBg (T + H) V (jsCeilMul H 1 V) (H.toNat + 1) T 0 = [] := by
      rw [hfuel, progressGoBg, if_neg (by omega)]
    constructor
    · unfold progressTrace000
      rw [h000]
      constructor
      · norm_num [List.chain'_cons]
      · intro x hx
        simp at hx
        rcases hx with rfl | rfl | rfl | rfl | rfl <;> omega
    · unfold progressTraceBg
      rw [hbg]
      constructor
      · norm_num [List.chain'_cons]
      · intro x hx
        simp at hx
        rcases hx with rfl | rfl | rfl | rfl <;> omega
  case pos =>
    have htot : 0 < jsCeilMul H 1 V := jsCeilMul_pos_total hH hV
    have hHV : H ≤ jsCeilMul H 1 V * V := le_jsCeilMul_mul hV
    constructor
    · -- part_000 trace
      have cL := progressGo000_chain (T + H) V (jsCeilMul H 1 V) htot (H.toNat + 1) T 0
        le_rfl
      have bL := progressGo000_mem_bounds (T + H) V (jsCeilMul H 1 V) htot (H.toNat + 1)
        T 0 le_rfl
      constructor
      · unfold progressTrace000
        refine List.Chain'.append (List.Chain'.append (by norm_num [List.chain'_cons]) cL ?_) (by norm_num [List.chain'_cons]) ?_
        · intro x hx z hz
          have hx30 : 30 = x := by simpa using hx
          have hz30 : 30 ≤ z := by
            have hmem : z ∈ progressGo000 (T + H) V (jsCeilMul H 1 V) (H.toNat + 1) T 0 :=
              List.mem_of_mem_head? hz
            exact (bL z hmem).1
          omega
        · intro x hx z hz
          have hz85 : 85 = z := by simpa using hz
          rw [List.getLast?_append] at hx
          rcases hot : (progressGo000 (T + H) V (jsCeilMul H 1 V) (H.toNat + 1) T 0).getLast? with
            _ | w
          · rw [hot] at hx
            have h30 : 30 = x := by simpa using hx
            omega
          · rw [hot] at hx
            have hxw : w = x := by simpa using hx
            have hmem : w ∈ progressGo000 (T + H) V (jsCeilMul H 1 V) (H.toNat + 1) T 0 :=
              mem_list_of_getLast_opt (by rw [hot]; rfl)
            have := (bL w hmem).2
            omega
      · unfold progressTrace000
        intro x hx
        rcases List.mem_append.mp hx with hx' | hx'
        · rcases List.mem_append.mp hx' with hx'' | hx''
          · simp at hx''
            rcases hx'' with rfl | rfl | rfl <;> omega
          · have := bL x hx''
            omega
        · simp at hx'
          rcases hx' with rfl | rfl <;> omega
    · -- background.js trace
      have hinv0 : (T + H) - T ≤ (jsCeilMul H 1 V - 0) * V := by
        have : (jsCeilMul H 1 V - 0) * V = jsCeilMul H 1 V * V := by ring
        omega
      have cL := progressGoBg_chain (T + H) V (jsCeilMul H 1 V) htot (H.toNat + 1) T 0
        le_rfl
      have bL := progressGoBg_mem_bounds (T + H) V (jsCeilMul H 1 V) htot hV (H.toNat + 1)
        T 0 le_rfl hinv0
      constructor
      · unfold progressTraceBg
        refine List.Chain'.append (List.Chain'.append (by norm_num [List.chain'_cons]) cL ?_) (by norm_num [List.chain'_cons]) ?_
        · intro x hx z hz
          have hx20 : 20 = x := by simpa using hx
          have hz20 : 20 ≤ z := by
            have hmem : z ∈ progressGoBg (T + H) V (jsCeilMul H 1 V) (H.toNat + 1) T 0 :=
              List.mem_of_mem_head? hz
            exact (bL z hmem).1
          omega
        · intro x hx z hz
          have hz75 : 75 = z := by simpa using hz
          rw [List.getLast?_append] at hx
          rcases hot : (progressGoBg (T + H) V (jsCeilMul H 1 V) (H.toNat + 1) T 0).getLast? with
            _ | w
          · rw [hot] at hx
            have h20 : 20 = x := by simpa using hx
            omega
          · rw [hot] at hx
            have hxw : w = x := by simpa using hx
            have hmem : w ∈ progressGoBg (T + H) V (jsCeilMul H 1 V) (H.toNat + 1) T 0 :=
              mem_list_of_getLast_opt (by rw [hot]; rfl)
            have := (bL w hmem).2
            omega
      · unfold progressTraceBg
        intro x hx
        rcases List.mem_append.mp hx with hx' | hx'
        · rcases List.mem_append.mp hx' with hx'' | hx''
          · simp at hx''
            rcases hx'' with rfl | rfl <;> omega
          · have := bL x hx''
            omega
        · simp at hx'
          rcases hx' with rfl | rfl <;> omega

/-- Evaluation of C9's theorem at a concrete geometry (three capture steps). -/
theorem progress_monotone_bounded_witness :
    List.Chain' (· ≤ ·) (progressTrace000 0 25 10) ∧
      ∀ x ∈ progressTrace000 0 25 10, 0 ≤ x ∧ x ≤ 100 :=
  (progress_monotone_bounded 0 25 10 (by decide)).1


/-! # Claim C5 -/

theorem pdfScaledH_pos {outW outH : ℤ} (hW : 0 < outW) (hH : 0 < outH) {cw : ℚ}
    (hcw : 0 < cw) : 0 < pdfScaledH outW outH cw := by
  unfold pdfScaledH
  have h1 : (0 : ℚ) < (outH : ℚ) := by exact_mod_cast hH
  have h2 : (0 : ℚ) < (outW : ℚ) := by exact_mod_cast hW
  positivity

theorem pdfTotalPages_pos {outW outH : ℤ} (hW : 0 < outW) (hH : 0 < outH) {cw ph : ℚ}
    (hcw : 0 < cw) (hph : 0 < ph) : 1 ≤ pdfTotalPages outW outH cw ph := by
  unfold pdfTotalPages
  have hq : (0 : ℚ) < pdfScaledH outW outH cw / ph :=
    div_pos (pdfScaledH_pos hW hH hcw) hph
  exact Int.ceil_pos.mpr hq

theorem pdfSrcYStart_zero (outW outH : ℤ) (cw ph : ℚ) :
    pdfSrcYStart outW outH cw ph 0 = 0 := by
  unfold pdfSrcYStart
  norm_num

theorem pdfSrcYStart_mono {outW outH : ℤ} (hW : 0 < outW) (hH : 0 < outH) {cw ph : ℚ}
    (hcw : 0 < cw) (hph : 0 < ph) {p q : ℕ} (hpq : p ≤ q) :
    pdfSrcYStart outW outH cw ph p ≤ pdfSrcYStart outW outH cw ph q := by
  unfold pdfSrcYStart
  apply Int.floor_mono
  have hS := pdfScaledH_pos hW hH hcw
  have hHq : (0 : ℚ) ≤ (outH : ℚ) := by exact_mod_cast hH.le
  have hpq' : (p : ℚ) ≤ (q : ℚ) := by exact_mod_cast hpq
  have h1 : (p : ℚ) * ph ≤ (q : ℚ) * ph := mul_le_mul_of_nonneg_right hpq' hph.le
  have h2 : (p : ℚ) * ph / pdfScaledH outW outH cw ≤
      (q : ℚ) * ph / pdfScaledH outW outH cw := (div_le_div_iff_of_pos_right hS).mpr h1
  exact mul_le_mul_of_nonneg_right h2 hHq

theorem pdfSrcYStart_lt {outW outH : ℤ} (hW : 0 < outW) (hH : 0 < outH) {cw ph : ℚ}
    (hcw : 0 < cw) (hph : 0 < ph) {p : ℕ}
    (hp : (p : ℚ) * ph < pdfScaledH outW outH cw) :
    pdfSrcYStart outW outH cw ph p < outH := by
  unfold pdfSrcYStart
  rw [Int.floor_lt]
  have hS := pdfScaledH_pos hW hH hcw
  have h1 : (p : ℚ) * ph / pdfScaledH outW outH cw < 1 := (div_lt_one hS).mpr hp
  have hHq : (0 : ℚ) < (outH : ℚ) := by exact_mod_cast hH
  calc (p : ℚ) * ph / pdfScaledH outW outH cw * (outH : ℚ)
      < 1 * (outH : ℚ) := mul_lt_mul_of_pos_right h1 hHq
    _ = (outH : ℚ) := one_mul _

theorem outH_le_pdfSrcYStart {outW outH : ℤ} (hW : 0 < outW) (hH : 0 < outH) {cw ph : ℚ}
    (hcw : 0 < cw) (hph : 0 < ph) {p : ℕ}
    (hp : pdfScaledH outW outH cw ≤ (p : ℚ) * ph) :
    outH ≤ pdfSrcYStart outW outH cw ph p := by
  unfold pdfSrcYStart
  rw [Int.le_floor]
  have hS := pdfScaledH_pos hW hH hcw
  have h1 : 1 ≤ (p : ℚ) * ph / pdfScaledH outW outH cw := (one_le_div hS).mpr hp
  have hHq : (0 : ℚ) ≤ (outH : ℚ) := by exact_mod_cast hH.le
  calc (outH : ℚ) = 1 * (outH : ℚ) := (one_mul _).symm
    _ ≤ (p : ℚ) * ph / pdfScaledH outW outH cw * (outH : ℚ) :=
        mul_le_mul_of_nonneg_right h1 hHq

theorem scaledH_le_totalPages_mul {outW outH : ℤ} {cw ph : ℚ} (hph : 0 < ph) :
    pdfScaledH outW outH cw ≤ (pdfTotalPages outW outH cw ph : ℚ) * ph := by
  have h := Int.le_ceil (pdfScaledH outW outH cw / ph)
  rw [div_le_iff₀ hph] at h
  exact h

theorem totalPages_sub_one_lt_scaledH {outW outH : ℤ} {cw ph : ℚ} (hph : 0 < ph) :
    ((pdfTotalPages outW outH cw ph : ℚ) - 1) * ph < pdfScaledH outW outH cw := by
  have h := Int.ceil_lt_add_one (pdfScaledH outW outH cw / ph)
  have h2 : (pdfTotalPages outW outH cw ph : ℚ) - 1 < pdfScaledH outW outH cw / ph := by
    unfold pdfTotalPages
    linarith
  exact (lt_div_iff₀ hph).mp h2

theorem pdfWindows_chain {outW outH : ℤ} (hW : 0 < outW) (hH : 0 < outH) {cw ph : ℚ}
    (hcw : 0 < cw) (hph : 0 < ph) :
    ∀ (m k : ℕ), 0 < m → ((k : ℤ) + (m : ℤ) = pdfTotalPages outW outH cw ph) →
      abutFrom (pdfSrcYStart outW outH cw ph k) outH
        ((List.range' k m).map (fun p =>
          (pdfSrcYStart outW outH cw ph p, pdfSrcYEnd outW outH cw ph p))) := by
  intro m
  induction m with
  | zero => intro k h0 _; omega
  | succ m' ih =>
    intro k _ hkm
    match m' with
    | 0 =>
      -- last page: k + 1 = totalPages, its end is clamped to outH
      have hk1 : (k : ℤ) + 1 = pdfTotalPages outW outH cw ph := by push_cast at hkm; omega
      have hlt : (k : ℚ) * ph < pdfScaledH outW outH cw := by
        have h := @totalPages_sub_one_lt_scaledH outW outH cw ph hph
        have hcast : (k : ℚ) = (pdfTotalPages outW outH cw ph : ℚ) - 1 := by
          have : ((k : ℤ) : ℚ) + 1 = ((pdfTotalPages outW outH cw ph : ℤ) : ℚ) := by
            exact_mod_cast hk1
          push_cast at this ⊢
          linarith
        rw [hcast]
        exact h
      have hstart_lt : pdfSrcYStart outW outH cw ph k < outH :=
        pdfSrcYStart_lt hW hH hcw hph hlt
      have hclamp : pdfSrcYEnd outW outH cw ph k = outH := by
        unfold pdfSrcYEnd
        apply min_eq_right
        apply outH_le_pdfSrcYStart hW hH hcw hph
        have hge := @scaledH_le_totalPages_mul outW outH cw ph hph
        have hcast : ((k + 1 : ℕ) : ℚ) = (pdfTotalPages outW outH cw ph : ℚ) := by
          have : (((k : ℤ) + 1 : ℤ) : ℚ) = ((pdfTotalPages outW outH cw ph : ℤ) : ℚ) := by
            exact_mod_cast hk1
          push_cast at this ⊢
          linarith
        rw [hcast]
        exact hge
      exact ⟨rfl, by rw [hclamp]; omega, by rw [hclamp]; rfl⟩
    | m'' + 1 =>
      -- non-last page: its end is the next page's start, unclamped
      have hnext : ((k + 1 : ℕ) : ℤ) + ((m'' + 1 : ℕ) : ℤ) = pdfTotalPages outW outH cw ph := by
        push_cast at hkm ⊢; omega
      have hk1_lt : ((k + 1 : ℕ) : ℚ) * ph < pdfScaledH outW outH cw := by
        have h := @totalPages_sub_one_lt_scaledH outW outH cw ph hph
        have hle : ((k + 1 : ℕ) : ℚ) ≤ (pdfTotalPages outW outH cw ph : ℚ) - 1 := by
          have hz : ((k + 1 : ℕ) : ℤ) ≤ pdfTotalPages outW outH cw ph - 1 := by
            push_cast at hnext ⊢; omega
          have hzq : (((k + 1 : ℕ) : ℤ) : ℚ) ≤ ((pdfTotalPages outW outH cw ph - 1 : ℤ) : ℚ) := by
            exact_mod_cast hz
          push_cast at hzq ⊢
          linarith
        calc ((k + 1 : ℕ) : ℚ) * ph ≤ ((pdfTotalPages outW outH cw ph : ℚ) - 1) * ph :=
              mul_le_mul_of_nonneg_right hle hph.le
          _ < pdfScaledH outW outH cw := h
      have hnoclamp : pdfSrcYEnd outW outH cw ph k =
          pdfSrcYStart outW outH cw ph (k + 1) := by
        unfold pdfSrcYEnd
        apply min_eq_left
        exact le_of_lt (pdfSrcYStart_lt hW hH hcw hph hk1_lt)
      have hmono : pdfSrcYStart outW outH cw ph k ≤
          pdfSrcYStart outW outH cw ph (k + 1) :=
        pdfSrcYStart_mono hW hH hcw hph (by omega)
      rw [List.range'_succ, List.map_cons]
      refine ⟨rfl, ?_, ?_⟩
      · rw [hnoclamp]; exact hmono
      · rw [hnoclamp]
        exact ih (k + 1) (by omega) hnext

/-- C5: for every stitched surface with positive width and height and every
valid page geometry (positive content width and per-page content height),
the PDF loop of `combineAndExport` produces exactly
`totalPages = ceil(scaledH / pageH)` pages with `totalPages ≥ 1`, and the
per-page source windows `[srcYStart, srcYEnd)` abut exactly and cover
`[0, outH)` without gaps, the last window being clamped to `outH`. -/
theorem generatePDF_pagination (outW outH : ℤ) (contentW pageContentH : ℚ)
    (hW : 0 < outW) (hH : 0 < outH) (hcw : 0 < contentW) (hph : 0 < pageContentH) :
    1 ≤ pdfTotalPages outW outH contentW pageContentH ∧
      (pdfWindows outW outH contentW pageContentH).length =
        (pdfTotalPages outW outH contentW pageContentH).toNat ∧
      abutFrom 0 outH (pdfWindows outW outH contentW pageContentH) := by
  have hn := @pdfTotalPages_pos outW outH hW hH contentW pageContentH hcw hph
  refine ⟨hn, by simp [pdfWindows], ?_⟩
  unfold pdfWindows
  rw [List.range_eq_range']
  have hchain := pdfWindows_chain hW hH hcw hph
    (pdfTotalPages outW outH contentW pageContentH).toNat 0 (by omega)
    (by push_cast; omega)
  rw [pdfSrcYStart_zero] at hchain
  exact hchain

/-- Evaluation of C5's theorem at a concrete surface and the A4 geometry of
the source (`contentW = 190`, `pageContentH = 277`). -/
theorem generatePDF_pagination_witness :
    1 ≤ pdfTotalPages 190 554 190 277 ∧
      (pdfWindows 190 554 190 277).length = (pdfTotalPages 190 554 190 277).toNat ∧
      abutFrom 0 554 (pdfWindows 190 554 190 277) :=
  generatePDF_pagination 190 554 190 277 (by norm_num) (by norm_num) (by norm_num)
    (by norm_num)
